import Mathlib

/-!
Verification of the TableCompiler binary encoder
(`config_generator/writers.py`, `config_generator/readers.py`).

Strings manipulated by the source are modelled as explicit character lists
(`Str := List Char`) so every operation is a plain structural recursion that
the kernel can evaluate.  Cell values are modelled by the inductive `Value`,
covering the Python values that reach the encoder: `None`, `str`, `int`,
`bool`, `list`, and `dict` (from `json.loads`).  Machine integers are
modelled as `Int`/`Nat` with explicit reduction modulo `2^w`; byte buffers
are `List Nat` with every entry below 256.  Fallible operations return
`Except`.

Modelling notes (constraints the Lean text cannot show):
* Python regexes in the source use `.`, which does not match newline; the
  model assumes type-syntax strings are newline free, which holds for every
  value the repository ever constructs.
* Python `str.split` raises on an empty separator; the model returns the
  whole string unsplit there.  No delimiter in the repository is empty.
* Fractional or exponent numeric literals (JSON floats, `float("1.5")`) are
  outside the modelled fragment: the model signals a coercion error where
  CPython would build a `float`.  Integral values are modelled exactly,
  including the IEEE-754 binary32 packing performed by `struct.pack("<f")`.
* Python `repr` escaping of quotes inside strings is not modelled; it is
  only reachable through `str()` of a list/dict value, which no claim input
  exercises.
-/

namespace TableCompiler

/-- Character-list strings: the model of Python `str`. -/
abbrev Str := List Char

/-- Python `str.strip()`: drop whitespace from both ends. -/
def pyStrip (s : Str) : Str :=
  ((s.dropWhile Char.isWhitespace).reverse.dropWhile Char.isWhitespace).reverse

/-- Python `str.lower()` (ASCII case fold, as used for bool coercion). -/
def lowerS (s : Str) : Str := s.map Char.toLower

/-- Python `str.endswith` on the last character, used by the type regexes. -/
def lastIs (s : Str) (c : Char) : Bool := s.getLast? == some c

/-- One splitting step of Python `s.split(sep)` for a nonempty `sep`:
    accumulates the current part in `acc` (reversed).  The fuel argument is
    structural so the kernel can evaluate; one unit covers one character. -/
def splitOnGo (sep : Str) : Nat → Str → Str → List Str
  | 0, s, acc => [acc.reverse ++ s]
  | _+1, [], acc => [acc.reverse]
  | f+1, c :: rest, acc =>
    if sep.isPrefixOf (c :: rest) then
      acc.reverse :: splitOnGo sep f (List.drop sep.length (c :: rest)) []
    else
      splitOnGo sep f rest (c :: acc)

/-- Python `s.split(sep)`: left-to-right, non-overlapping; the empty string
    yields one empty part.  (Python raises on an empty separator; the model
    returns the string unsplit, a case the source never reaches.) -/
def pySplit (s sep : Str) : List Str :=
  if sep = [] then [s] else splitOnGo sep (s.length + 1) s []

/-- Decimal digits of a natural number, most significant first (fuelled). -/
def natDigitsGo : Nat → Nat → Str
  | 0, _ => []
  | f+1, n =>
    if n < 10 then [Char.ofNat (48 + n)]
    else natDigitsGo f (n / 10) ++ [Char.ofNat (48 + n % 10)]

/-- Decimal digits of a natural number. -/
def natDigits (n : Nat) : Str := natDigitsGo (n + 1) n

/-- Python `str(n)` for an integer. -/
def intToStr (n : Int) : Str :=
  if n < 0 then '-' :: natDigits (-n).toNat else natDigits n.toNat

/-- Floor base-2 logarithm (fuelled so the kernel can evaluate). -/
def log2Go : Nat → Nat → Nat
  | 0, _ => 0
  | f+1, n => if n ≤ 1 then 0 else 1 + log2Go f (n / 2)

/-- Floor base-2 logarithm: for positive `n`, `2 ^ log2N n ≤ n < 2 ^ (log2N n + 1)`. -/
def log2N (n : Nat) : Nat := log2Go n n

/-- Value of a digit run, `none` if a non-digit appears. -/
def digitsVal : Str → Nat → Option Nat
  | [], acc => some acc
  | c :: cs, acc =>
    if c.isDigit then digitsVal cs (acc * 10 + (c.toNat - 48)) else none

/-- Python `int(s)` on a string: optional surrounding whitespace, optional
    sign, then decimal digits.  (Digit-group underscores are not modelled.) -/
def parsePyInt (s : Str) : Option Int :=
  match pyStrip s with
  | [] => none
  | '-' :: rest =>
    if rest = [] then none else (digitsVal rest 0).map (fun n => -(n : Int))
  | '+' :: rest =>
    if rest = [] then none else (digitsVal rest 0).map (fun n => (n : Int))
  | cs => (digitsVal cs 0).map (fun n => (n : Int))

/-! ### Byte-level encoding (`struct.pack`, little-endian) -/

/-- Little-endian byte list of `n` on `w` bytes (value taken mod `2^(8*w)`). -/
def natLE : Nat → Nat → List Nat
  | 0, _ => []
  | w+1, n => n % 256 :: natLE w (n / 256)

/-- Value of a little-endian byte list. -/
def leToNat : List Nat → Nat
  | [] => 0
  | b :: bs => b + 256 * leToNat bs

/-- `struct.pack("<i", v)` byte image (callers check the signed range). -/
def int32LE (v : Int) : List Nat := natLE 4 (v % ((2:Int)^32)).toNat

/-- `struct.pack("<q", v)` byte image (callers check the signed range). -/
def int64LE (v : Int) : List Nat := natLE 8 (v % ((2:Int)^64)).toNat

/-- Signed little-endian decoding of a 4-byte list. -/
def decodeInt32 (bs : List Nat) : Int :=
  let u := leToNat bs
  if u < 2^31 then (u : Int) else (u : Int) - 2^32

/-- Signed little-endian decoding of an 8-byte list. -/
def decodeInt64 (bs : List Nat) : Int :=
  let u := leToNat bs
  if u < 2^63 then (u : Int) else (u : Int) - 2^64

/-- UTF-8 encoding of one character. -/
def utf8Char (c : Char) : List Nat :=
  let n := c.toNat
  if n < 128 then [n]
  else if n < 2048 then [192 + n / 64, 128 + n % 64]
  else if n < 65536 then [224 + n / 4096, 128 + (n / 64) % 64, 128 + n % 64]
  else [240 + n / 262144, 128 + (n / 4096) % 64, 128 + (n / 64) % 64, 128 + n % 64]

/-- UTF-8 byte sequence of a string (`s.encode("utf-8")`). -/
def utf8 (s : Str) : List Nat := (s.map utf8Char).flatten

/-- IEEE-754 binary32 bit pattern of a natural number, round to nearest,
    ties to even.  Above the finite range the infinity pattern is produced
    (CPython `struct.pack` raises there; the source never reaches it). -/
def f32bitsOfNat (n : Nat) : Nat :=
  if n = 0 then 0
  else
    let k := log2N n
    if k ≤ 23 then (k + 127) * 2^23 + (n * 2^(23 - k) - 2^23)
    else
      let sh := k - 23
      let q := n / 2^sh
      let r := n % 2^sh
      let q1 := if r * 2 > 2^sh ∨ (r * 2 = 2^sh ∧ q % 2 = 1) then q + 1 else q
      if q1 = 2^24 then
        if 128 ≤ k + 1 then 2139095040 else (k + 129) * 2^23
      else
        if 128 ≤ k then 2139095040 else (k + 127) * 2^23 + (q1 - 2^23)

/-- IEEE-754 binary32 bit pattern of an integer value. -/
def f32bitsOfInt (v : Int) : Nat :=
  if v < 0 then 2^31 + f32bitsOfNat (-v).toNat else f32bitsOfNat v.toNat

/-! ### Values -/

/-- The Python values that flow through the encoder. -/
inductive Value where
  | vnone
  | vstr (s : Str)
  | vint (n : Int)
  | vbool (b : Bool)
  | vlist (elems : List Value)
  | vdict (entries : List (Str × Value))

mutual

/-- Python `repr` for the modelled values (quote escaping not modelled). -/
def pyRepr : Value → Str
  | .vnone => ("None").toList
  | .vbool b => if b then ("True").toList else ("False").toList
  | .vint n => intToStr n
  | .vstr s => Char.ofNat 39 :: s ++ [Char.ofNat 39]
  | .vlist xs => '[' :: pyReprSeq xs ++ [']']
  | .vdict kvs => Char.ofNat 123 :: pyReprEntries kvs ++ [Char.ofNat 125]

/-- Comma-joined `repr` of list elements. -/
def pyReprSeq : List Value → Str
  | [] => []
  | [x] => pyRepr x
  | x :: y :: xs => pyRepr x ++ (", ").toList ++ pyReprSeq (y :: xs)

/-- Comma-joined `repr` of dict entries. -/
def pyReprEntries : List (Str × Value) → Str
  | [] => []
  | [(k, v)] => Char.ofNat 39 :: k ++ [Char.ofNat 39] ++ (": ").toList ++ pyRepr v
  | (k, v) :: e :: kvs =>
    Char.ofNat 39 :: k ++ [Char.ofNat 39] ++ (": ").toList ++ pyRepr v
      ++ (", ").toList ++ pyReprEntries (e :: kvs)

end

/-- Python `str(v)`. -/
def pyStrV : Value → Str
  | .vstr s => s
  | v => pyRepr v

/-- Python truthiness `bool(v)` for the modelled values. -/
def pyTruthy : Value → Bool
  | .vnone => false
  | .vstr s => if s = [] then false else true
  | .vint n => if n = 0 then false else true
  | .vbool b => b
  | .vlist [] => false
  | .vlist (_ :: _) => true
  | .vdict [] => false
  | .vdict (_ :: _) => true

/-! ### JSON (`json.loads`), restricted to the modelled value fragment -/

/-- JSON whitespace. -/
def jsonWs (c : Char) : Bool := c == ' ' || c == '\t' || c == '\n' || c == '\r'

/-- The opening brace character, written by code point. -/
def lbrace : Char := Char.ofNat 123

/-- The closing brace character, written by code point. -/
def rbrace : Char := Char.ofNat 125

/-- Parse a JSON string body after the opening quote (fuelled); returns the
    decoded content and the remaining input.  `\uXXXX` escapes are not
    modelled. -/
def jsonStrGo : Nat → Str → Option (Str × Str)
  | 0, _ => none
  | _+1, [] => none
  | f+1, c :: cs =>
    if c = '"' then some ([], cs)
    else if c = '\\' then
      match cs with
      | [] => none
      | e :: cs1 =>
        let dec : Option Char :=
          if e = '"' then some '"'
          else if e = '\\' then some '\\'
          else if e = '/' then some '/'
          else if e = 'n' then some '\n'
          else if e = 't' then some '\t'
          else if e = 'r' then some '\r'
          else none
        match dec with
        | none => none
        | some d =>
          match jsonStrGo f cs1 with
          | none => none
          | some (body, rest) => some (d :: body, rest)
    else
      match jsonStrGo f cs with
      | none => none
      | some (body, rest) => some (c :: body, rest)

/-- Parse a JSON string body after the opening quote. -/
def jsonStrBody (cs : Str) : Option (Str × Str) := jsonStrGo (cs.length + 1) cs

/-- Digit-run value (digits guaranteed by the caller). -/
def digitsNat (ds : Str) : Nat := ds.foldl (fun a c => a * 10 + (c.toNat - 48)) 0

/-- Parse a JSON integer literal.  Fractional and exponent forms are outside
    the modelled fragment and fail here (CPython would build a float). -/
def jsonNum (cs : Str) : Option (Value × Str) :=
  let neg : Bool := match cs with | '-' :: _ => true | _ => false
  let cs1 := match cs with | '-' :: t => t | _ => cs
  let ds := cs1.takeWhile Char.isDigit
  let rest := cs1.dropWhile Char.isDigit
  if ds = [] then none
  else
    match rest with
    | '.' :: _ => none
    | 'e' :: _ => none
    | 'E' :: _ => none
    | _ => some (.vint (if neg then -(digitsNat ds : Int) else (digitsNat ds : Int)), rest)

/-- The three recursive-descent states of the JSON parser. -/
inductive JMode where
  | val
  | items
  | entries

/-- The three result shapes of the JSON parser. -/
inductive JRes where
  | one (v : Value)
  | many (vs : List Value)
  | ents (kvs : List (Str × Value))

/-- Fuelled recursive-descent JSON parser, a single function so that the
    recursion is structural on the fuel: `.val` parses one value, `.items`
    the comma-separated items of an array up to `]`, `.entries` the entries
    of an object up to the closing brace. -/
def jsonP : Nat → JMode → Str → Option (JRes × Str)
  | 0, _, _ => none
  | f+1, .val, cs0 =>
    let cs := cs0.dropWhile jsonWs
    match cs with
    | [] => none
    | c :: rest =>
      if c = '"' then (jsonStrBody rest).map (fun p => (.one (.vstr p.1), p.2))
      else if c = '[' then
        let r1 := rest.dropWhile jsonWs
        match r1 with
        | ']' :: r2 => some (.one (.vlist []), r2)
        | _ =>
          match jsonP f .items r1 with
          | some (.many vs, r2) => some (.one (.vlist vs), r2)
          | _ => none
      else if c = lbrace then
        let r1 := rest.dropWhile jsonWs
        match r1 with
        | c2 :: _ =>
          if c2 = rbrace then some (.one (.vdict []), r1.drop 1)
          else
            match jsonP f .entries r1 with
            | some (.ents kvs, r3) => some (.one (.vdict kvs), r3)
            | _ => none
        | [] => none
      else if ("true").toList.isPrefixOf cs then some (.one (.vbool true), cs.drop 4)
      else if ("false").toList.isPrefixOf cs then some (.one (.vbool false), cs.drop 5)
      else if ("null").toList.isPrefixOf cs then some (.one .vnone, cs.drop 4)
      else (jsonNum cs).map (fun p => (.one p.1, p.2))
  | f+1, .items, cs =>
    match jsonP f .val cs with
    | some (.one v, r) =>
      (match r.dropWhile jsonWs with
       | ',' :: r2 =>
         (match jsonP f .items r2 with
          | some (.many vs, r3) => some (.many (v :: vs), r3)
          | _ => none)
       | ']' :: r2 => some (.many [v], r2)
       | _ => none)
    | _ => none
  | f+1, .entries, cs =>
    match cs.dropWhile jsonWs with
    | [] => none
    | c :: r =>
      if c = '"' then
        match jsonStrBody r with
        | none => none
        | some (k, r1) =>
          match r1.dropWhile jsonWs with
          | ':' :: r2 =>
            (match jsonP f .val r2 with
             | some (.one v, r3) =>
               (match r3.dropWhile jsonWs with
                | ',' :: r4 =>
                  (match jsonP f .entries r4 with
                   | some (.ents kvs, r5) => some (.ents ((k, v) :: kvs), r5)
                   | _ => none)
                | c2 :: r4 => if c2 = rbrace then some (.ents [(k, v)], r4) else none
                | [] => none)
             | _ => none)
          | _ => none
      else none

/-- Parse one JSON value, returning it and the remaining input. -/
def jsonVal (f : Nat) (s : Str) : Option (Value × Str) :=
  match jsonP f .val s with
  | some (.one v, r) => some (v, r)
  | _ => none

/-- Python `json.loads`: one value, then only whitespace may remain. -/
def jsonParse (s : Str) : Option Value :=
  match jsonVal (s.length + 1) s with
  | some (v, rest) => if rest.dropWhile jsonWs = [] then some v else none
  | none => none

/-! ### Type-syntax parsing (`parse_type_string`, `parse_unified_syntax`) -/

/-- Whether the stripped string is `kw(...)`. -/
def isCollOf (kw : String) (s : Str) : Bool :=
  (kw.toList ++ ['(']).isPrefixOf s && lastIs s ')'

/-- `parse_type_string`: recognize `list(...)`, `set(...)`, `array(...)`.
    On a match the groups come from the stripped string; otherwise the
    original string is returned unchanged (as in the source). -/
def parseTypeString (t : Str) : Option Str × Str :=
  let s := pyStrip t
  if isCollOf "list" s then (some ("list").toList, (s.drop 5).dropLast)
  else if isCollOf "set" s then (some ("set").toList, (s.drop 4).dropLast)
  else if isCollOf "array" s then (some ("array").toList, (s.drop 6).dropLast)
  else (none, t)

/-- Errors raised on the encoding path. -/
inductive EncErr where
  | malformedDelimiters (s : Str)
  | unknownType (name : Str)
  | coercion
  | packOverflow
  | depth

/-- Extract a JSON array of strings, the only delimiter shape the source
    ever feeds to `str.split`.  A syntactically valid JSON suffix holding
    non-strings is reported as malformed here; in the source it would fail
    later, when the non-string is used as a separator. -/
def asStrList : Value → Option (List Str)
  | .vlist xs =>
    xs.mapM (fun v => match v with | .vstr s => some s | _ => none)
  | _ => none

/-- `parse_unified_syntax`: split a trailing `[...]` suffix (earliest `[`
    when the string ends in `]`) and parse it as a JSON array of strings. -/
def parseUnifiedSyntax (t : Str) : Except EncErr (Str × Option (List Str)) :=
  let s := pyStrip t
  match s.findIdx? (fun c => c = '[') with
  | none => .ok (pyStrip s, none)
  | some k =>
    if lastIs s ']' then
      let suf := s.drop k
      match (jsonParse suf).bind asStrList with
      | some ds => .ok (pyStrip (s.take k), some ds)
      | none => .error (.malformedDelimiters suf)
    else .ok (pyStrip s, none)

/-! ### Type registry (`TypeSystem.get_type`) -/

/-- A loaded `TypeDefines` entry: the JSON dict fields the writer reads. -/
structure TypeDef where
  targetTypeAsEnum : Bool := false
  enumMembers : List (Str × Int) := []
  fieldSequence : List (Str × Str) := []

/-- Association-list lookup, first match wins (entries are prepended, so the
    first match is the most recently registered one, as in a Python dict). -/
def assoc : List (Str × β) → Str → Option β
  | [], _ => none
  | (k1, v) :: rest, k => if k1 = k then some v else assoc rest k

/-- The map of loaded definitions plus default schemas and the set of
    already-loaded files (`TypeSystem` state). -/
structure TypeSystem where
  files : List Str := []
  loadedTypes : List (Str × TypeDef) := []
  defaultSchemas : List (Str × List Str) := []

/-- Result of `get_type`: a loaded definition, or the `{"TargetType": name}`
    marker dict synthesized for builtins and collection syntax. -/
inductive Resolved where
  | marker (targetType : Str)
  | defn (d : TypeDef)

/-- The five built-in primitive names. -/
def builtinNames : List Str :=
  [("int").toList, ("long").toList, ("string").toList, ("bool").toList, ("float").toList]

/-- `TypeSystem.get_type`: loaded definitions take precedence; otherwise a
    marker is synthesized for collection syntax and the five builtins; any
    other name raises. -/
def getType (types : List (Str × TypeDef)) (name : Str) : Except EncErr Resolved :=
  match assoc types name with
  | some td => .ok (.defn td)
  | none =>
    match parseTypeString name with
    | (some _, _) => .ok (.marker name)
    | (none, _) =>
      if name ∈ builtinNames then .ok (.marker name) else .error (.unknownType name)

/-- `get_default_schema`: the registered fallback delimiter schema for a
    literal type-syntax string. -/
def getDefaultSchema (ts : TypeSystem) (typeExpr : Str) : Option (List Str) :=
  assoc ts.defaultSchemas typeExpr

/-- Truthiness of `TargetTypeAsEnum` on a `get_type` result (`dict.get`). -/
def Resolved.isEnum : Resolved → Bool
  | .marker _ => false
  | .defn d => d.targetTypeAsEnum

/-- `EnumMembers` of a `get_type` result. -/
def Resolved.members : Resolved → List (Str × Int)
  | .marker _ => []
  | .defn d => d.enumMembers

/-- `FieldSequence` of a `get_type` result (`dict.get` default `[]`). -/
def Resolved.fields : Resolved → List (Str × Str)
  | .marker _ => []
  | .defn d => d.fieldSequence

/-! ### The primitive writers (`BinaryWriter`) -/

/-- `struct.pack("?", b)`: one byte, 0 or 1. -/
def packBool (b : Bool) : List Nat := [if b then 1 else 0]

/-- `struct.pack("<i", v)` including its signed-range check. -/
def packI32 (v : Int) : Except EncErr (List Nat) :=
  if -((2:Int)^31) ≤ v ∧ v < (2:Int)^31 then .ok (int32LE v) else .error .packOverflow

/-- `struct.pack("<q", v)` including its signed-range check. -/
def packI64 (v : Int) : Except EncErr (List Nat) :=
  if -((2:Int)^63) ≤ v ∧ v < (2:Int)^63 then .ok (int64LE v) else .error .packOverflow

/-- `BinaryWriter.write_string`: `None` writes length 0; otherwise the UTF-8
    byte count of `str(v)` as a 4-byte little-endian prefix, then the bytes. -/
def writeStringB (data : Value) : List Nat :=
  match data with
  | .vnone => int32LE 0
  | v => int32LE (utf8 (pyStrV v)).length ++ utf8 (pyStrV v)

/-- `BinaryWriter.write_int`: `int(v) if v is not None else 0`, packed. -/
def writeIntB (data : Value) : Except EncErr (List Nat) :=
  match data with
  | .vnone => .ok (int32LE 0)
  | .vint n => packI32 n
  | .vbool b => packI32 (if b then 1 else 0)
  | .vstr s =>
    match parsePyInt s with
    | some n => packI32 n
    | none => .error .coercion
  | _ => .error .coercion

/-- `BinaryWriter.write_long`: as `write_int`, on 8 bytes. -/
def writeLongB (data : Value) : Except EncErr (List Nat) :=
  match data with
  | .vnone => .ok (int64LE 0)
  | .vint n => packI64 n
  | .vbool b => packI64 (if b then 1 else 0)
  | .vstr s =>
    match parsePyInt s with
    | some n => packI64 n
    | none => .error .coercion
  | _ => .error .coercion

/-- `BinaryWriter.write_float`: `float(v) if v is not None else 0.0`, packed
    as IEEE-754 binary32 little-endian.  Only integral values are modelled;
    the all-zero pattern is the binary32 representation of 0.0. -/
def writeFloatB (data : Value) : Except EncErr (List Nat) :=
  match data with
  | .vnone => .ok (natLE 4 0)
  | .vint n => .ok (natLE 4 (f32bitsOfInt n))
  | .vbool b => .ok (natLE 4 (f32bitsOfInt (if b then 1 else 0)))
  | .vstr s =>
    match parsePyInt s with
    | some n => .ok (natLE 4 (f32bitsOfInt n))
    | none => .error .coercion
  | _ => .error .coercion

/-! ### The recursive encoder (`CustomBinaryDataHandler`) -/

/-- Recursion core of `_normalize_data`, structural on the queue. -/
def normalizeGo : List Str → Value → Value
  | [], v => v
  | d :: rest, v =>
    match v with
    | .vlist xs => .vlist (xs.map (fun x => normalizeGo rest x))
    | .vstr s => .vlist ((pySplit s d).map (fun p => normalizeGo rest (.vstr p)))
    | u => u

/-- `_normalize_data`: pop one delimiter per recursion level; map over list
    values and over the parts of a string split, giving every branch an
    independent copy of the remaining queue. -/
def normalizeData (v : Value) (delimiters : List Str) : Value :=
  normalizeGo delimiters v

/-- `data if isinstance(data, list) else []`. -/
def asList : Value → List Value
  | .vlist xs => xs
  | _ => []

/-- The enum-ordinal resolution in `_write_recursive`: ints (and bools,
    which are ints in Python) pass through, strings are looked up in the
    member table with default 0, anything else stays 0. -/
def enumOrdinal (members : List (Str × Int)) : Value → Int
  | .vnone => 0
  | .vint n => n
  | .vbool b => if b then 1 else 0
  | .vstr s => (assoc members s).getD 0
  | _ => 0

/-- The bool coercion in `_write_recursive`: a string is true iff its
    lower-case form is `true`, `1` or `yes`; otherwise Python truthiness. -/
def boolCoerce : Value → Bool
  | .vstr s => lowerS s == ("true").toList || lowerS s == ("1").toList
      || lowerS s == ("yes").toList
  | v => pyTruthy v

/-- `_write_recursive`: dispatch on the type string — collection syntax
    first, then the five primitive names, then registry resolution into
    enum or positional struct encoding.  `fuel` bounds the recursion depth
    (the source has no guard and would overflow the Python stack instead). -/
def writeRecursive (types : List (Str × TypeDef)) : Nat → Value → Str → Except EncErr (List Nat)
  | 0, _, _ => .error .depth
  | fuel+1, data, typeStr =>
    match parseTypeString typeStr with
    | (some _, inner) =>
      let items := asList data
      match items.mapM (fun it => writeRecursive types fuel it inner) with
      | .error e => .error e
      | .ok segs => .ok (int32LE items.length ++ segs.flatten)
    | (none, name) =>
      if name = ("string").toList then .ok (writeStringB data)
      else if name = ("int").toList then writeIntB data
      else if name = ("long").toList then writeLongB data
      else if name = ("bool").toList then .ok (packBool (boolCoerce data))
      else if name = ("float").toList then writeFloatB data
      else
        match getType types name with
        | .error e => .error e
        | .ok td =>
          if td.isEnum then packI32 (enumOrdinal td.members data)
          else
            let vals := asList data
            match (td.fields.enum).mapM
                (fun p => writeRecursive types fuel (vals.getD p.1 .vnone) p.2.2) with
            | .error e => .error e
            | .ok segs => .ok segs.flatten

/-- Whether the stripped string starts with a JSON bracket. -/
def jsonLooking (s : Str) : Bool :=
  match s.dropWhile Char.isWhitespace with
  | [] => false
  | c :: _ => c == '[' || c == lbrace

/-- The `raw_value is None or raw_value == ''` coercion in `write_value`. -/
def coerceEmpty : Value → Value
  | .vnone => .vnone
  | .vstr [] => .vnone
  | v => v

/-- Recursion budget for the encoder; any bound at least the nesting depth
    of the data gives the same result. -/
def encodeFuel : Nat := 1000

/-- `write_value`: coerce empty input to `None`, parse the unified syntax,
    normalize (delimiter split when explicit delimiters exist and the value
    is a string; otherwise a JSON parse attempt on `{`/`[`-looking strings,
    keeping the literal string on failure), then write recursively. -/
def writeValue (ts : TypeSystem) (raw : Value) (syntaxStr : Str) : Except EncErr (List Nat) :=
  let raw1 := coerceEmpty raw
  match parseUnifiedSyntax syntaxStr with
  | .error e => .error e
  | .ok (typeStr, delims) =>
    let normalized :=
      match raw1, delims with
      | .vstr s, some (d :: ds) => normalizeData (.vstr s) (d :: ds)
      | .vstr s, _ =>
        if jsonLooking s then (jsonParse s).getD (.vstr s) else .vstr s
      | v, _ => v
    writeRecursive ts.loadedTypes encodeFuel normalized typeStr

/-! ### The encoder as the specification describes it

The specification (§4.3) describes a lazy delimiter discipline: the queue is
carried through the recursion, a collection pops one delimiter when its
value is a flat string, the empty string splits to an empty sequence, and a
single-collection-field wrapper struct passes a pending string through
unchanged.  The following two definitions are modelled from those words, to
be compared against `writeRecursive`/`writeValue` above. -/

/-- Modelled from the spec (§4.3 Step 3): recursive encode carrying the
    delimiter queue; collections pop one delimiter on string values with the
    empty string giving an empty element sequence; wrapper structs pass a
    pending string through to their single collection field; other structs
    split positionally; every branch gets a fresh copy of the queue. -/
def specWriteRec (types : List (Str × TypeDef)) :
    Nat → Value → List Str → Str → Except EncErr (List Nat)
  | 0, _, _, _ => .error .depth
  | fuel+1, data, q, typeStr =>
    match parseTypeString typeStr with
    | (some _, inner) =>
      let pq : List Value × List Str :=
        match data, q with
        | .vstr s, d :: rest =>
          (if s = [] then [] else (pySplit s d).map Value.vstr, rest)
        | .vlist xs, _ => (xs, q)
        | _, _ => ([], q)
      match pq.1.mapM (fun e => specWriteRec types fuel e pq.2 inner) with
      | .error e => .error e
      | .ok segs => .ok (int32LE pq.1.length ++ segs.flatten)
    | (none, name) =>
      if name = ("string").toList then .ok (writeStringB data)
      else if name = ("int").toList then writeIntB data
      else if name = ("long").toList then writeLongB data
      else if name = ("bool").toList then .ok (packBool (boolCoerce data))
      else if name = ("float").toList then writeFloatB data
      else
        match getType types name with
        | .error e => .error e
        | .ok td =>
          if td.isEnum then packI32 (enumOrdinal td.members data)
          else
            let flds := td.fields
            let wrapper : Bool :=
              match flds with
              | [(_, ft)] => ((parseTypeString ft).1).isSome
              | _ => false
            match data, q with
            | .vstr s, d :: rest =>
              if wrapper then
                match flds with
                | (_, ft) :: _ => specWriteRec types fuel (.vstr s) (d :: rest) ft
                | [] => .ok []
              else
                let vals := (pySplit s d).map Value.vstr
                match flds.enum.mapM
                    (fun p => specWriteRec types fuel (vals.getD p.1 .vnone) rest p.2.2) with
                | .error e => .error e
                | .ok segs => .ok segs.flatten
            | _, _ =>
              let vals := asList data
              match flds.enum.mapM
                  (fun p => specWriteRec types fuel (vals.getD p.1 .vnone) q p.2.2) with
              | .error e => .error e
              | .ok segs => .ok segs.flatten

/-- Modelled from the spec (§4.3 Steps 1 and 2): delimiters come from the
    explicit suffix, else from the registry default schema for the literal
    syntax string, else the queue is empty; a string value with a non-empty
    queue stays a string to be split lazily during recursion. -/
def specWriteValue (ts : TypeSystem) (raw : Value) (syntaxStr : Str) :
    Except EncErr (List Nat) :=
  match parseUnifiedSyntax syntaxStr with
  | .error e => .error e
  | .ok (typeStr, explicitDs) =>
    let delims :=
      match explicitDs with
      | some ds => ds
      | none => (getDefaultSchema ts syntaxStr).getD []
    let raw1 := coerceEmpty raw
    let v :=
      match raw1 with
      | .vstr s =>
        if delims ≠ [] then Value.vstr s
        else if jsonLooking s then (jsonParse s).getD (.vstr s)
        else Value.vstr s
      | u => u
    specWriteRec ts.loadedTypes encodeFuel v delims typeStr

/-! ### The registry loader (`TypeSystem.load_type_def`) -/

/-- One parsed `.innertypesdef.json` file. -/
structure TypeFile where
  importTypes : List Str := []
  typeDefines : List (Str × TypeDef) := []
  sourceSchemas : List (Str × List Str) := []

/-- The readable type-definition sources, keyed by canonical path (the
    model of the file system seen through `os.path.abspath` and `open`). -/
abbrev Store := List (Str × TypeFile)

/-- Errors raised by the loader. -/
inductive LoadErr where
  | fileNotFound (p : Str)
  | depth

/-- `load_type_def`, with the depth-first import recursion flattened into a
    pending-path list: the head path is skipped when already loaded,
    otherwise it is marked loaded, its imports are loaded depth-first, its
    local definitions and schemas are registered (prepended, so that the
    newest binding wins lookup), and then the remaining paths follow.  The
    structural fuel bounds the recursion for the kernel; the source relies
    on the loaded-set check instead. -/
def loadList (store : Store) : Nat → List Str → TypeSystem → Except LoadErr TypeSystem
  | 0, _, _ => .error .depth
  | _+1, [], ts => .ok ts
  | f+1, p :: ps, ts =>
    if p ∈ ts.files then loadList store f ps ts
    else
      match assoc store p with
      | none => .error (.fileNotFound p)
      | some file =>
        let ts1 : TypeSystem := { ts with files := p :: ts.files }
        match loadList store f file.importTypes ts1 with
        | .error e => .error e
        | .ok ts2 =>
          let ts3 : TypeSystem :=
            { ts2 with
              loadedTypes := file.typeDefines.foldl (fun m kv => kv :: m) ts2.loadedTypes,
              defaultSchemas :=
                file.sourceSchemas.foldl (fun m kv => kv :: m) ts2.defaultSchemas }
          loadList store f ps ts3

/-- `load_type_def` on one source path, with explicit fuel. -/
def loadTypeDef (store : Store) (fuel : Nat) (p : Str) (ts : TypeSystem) :
    Except LoadErr TypeSystem :=
  loadList store fuel [p] ts

/-! ### Concrete fixtures used by the claim theorems -/

/-- Shorthand for string literals as character lists. -/
def lit (s : String) : Str := s.toList

/-- A registry holding the wrapper struct `ItemList{Items: list(int)}`. -/
def itemListTS : TypeSystem :=
  { loadedTypes := [(lit "ItemList", { fieldSequence := [(lit "Items", lit "list(int)")] })] }

/-- A registry holding the struct `Item{Id: int, Count: int}`. -/
def itemTS : TypeSystem :=
  { loadedTypes := [(lit "Item",
      { fieldSequence := [(lit "Id", lit "int"), (lit "Count", lit "int")] })] }

/-- The enum `Quality{Common=0, Rare=1}` as a loaded definition table. -/
def qualityTypes : List (Str × TypeDef) :=
  [(lit "Quality",
    { targetTypeAsEnum := true,
      enumMembers := [(lit "Common", 0), (lit "Rare", 1)] })]

/-- A registry with no loaded types but a registered default delimiter
    schema for the literal syntax string `list(int)`. -/
def schemaTS : TypeSystem :=
  { defaultSchemas := [(lit "list(int)", [lit "~"])] }

/-- A two-file store for the loader: `A` imports `B`, both define `T`. -/
def storeC9 : Store :=
  [(lit "A", { importTypes := [lit "B"],
               typeDefines := [(lit "T", { fieldSequence := [(lit "x", lit "int")] })] }),
   (lit "B", { typeDefines := [(lit "T", { targetTypeAsEnum := true })] })]

/-! ### Shared helper lemmas -/

/-- Length and pointwise characterization of a successful `Except` `mapM`. -/
theorem mapM_ok_spec {ε α β : Type} (f : α → Except ε β) (da : α) (db : β) :
    ∀ (xs : List α) (ys : List β), xs.mapM f = .ok ys →
      ys.length = xs.length ∧
        ∀ i, i < xs.length → f (xs.getD i da) = .ok (ys.getD i db) := by
  intro xs
  induction xs with
  | nil =>
    intro ys h
    simp only [List.mapM_nil, pure, Except.pure] at h
    cases h
    exact ⟨rfl, by intro i hi; cases hi⟩
  | cons a l ih =>
    intro ys h
    simp only [List.mapM_cons] at h
    cases hfa : f a with
    | error e =>
      rw [hfa] at h
      simp [bind, Except.bind] at h
    | ok y =>
      rw [hfa] at h
      simp only [bind, Except.bind] at h
      cases hml : l.mapM f with
      | error e =>
        rw [hml] at h
        simp at h
      | ok ys1 =>
        rw [hml] at h
        simp only [pure, Except.pure, Except.ok.injEq] at h
        subst h
        obtain ⟨hlen, hget⟩ := ih ys1 hml
        refine ⟨by simp [hlen], ?_⟩
        intro i hi
        cases i with
        | zero => simpa using hfa
        | succ j =>
          simp only [List.getD_cons_succ]
          exact hget j (by simpa using hi)

/-- A non-collection parse returns the input unchanged in the second slot. -/
theorem parseTypeString_none {t : Str} (h : (parseTypeString t).1 = none) :
    parseTypeString t = (none, t) := by
  unfold parseTypeString at h ⊢
  by_cases h1 : isCollOf "list" (pyStrip t) = true <;>
    by_cases h2 : isCollOf "set" (pyStrip t) = true <;>
      by_cases h3 : isCollOf "array" (pyStrip t) = true <;>
        simp_all

/-! ### C1 -/

/-- C1, counterexample: encoding the wrapper struct
    `ItemList{Items: list(int)}` with delimiter list `["~"]` and raw value
    `"1~2~3"` yields `int32(0)`, not the bytes of `list(int)["~"]` on the
    same value, so the claimed wrapper-struct elision does not happen. -/
theorem c1_wrapper_counterexample :
    writeValue itemListTS (.vstr (lit "1~2~3")) (lit "ItemList[\"~\"]")
        = .ok [0, 0, 0, 0]
      ∧ writeValue itemListTS (.vstr (lit "1~2~3")) (lit "list(int)[\"~\"]")
        = .ok [3,0,0,0, 1,0,0,0, 2,0,0,0, 3,0,0,0]
      ∧ ([0, 0, 0, 0] : List Nat) ≠ [3,0,0,0, 1,0,0,0, 2,0,0,0, 3,0,0,0] :=
  ⟨rfl, rfl, by decide⟩

/-- C1, amended: the encoder has no wrapper special case.  A struct encodes
    as the concatenation of its fields encoded positionally against the
    (already normalized) value list — field `i` receives element `i`, or
    null beyond the end — and in the wrapper scenario the split parts are
    distributed this way, so `Items` receives only the first part `"1"`,
    which is not a list, and the inner list encodes count 0: the bytes are
    `int32(0)`, not those of the plain `list(int)` encoding. -/
theorem c1_struct_positional_encoding
    (types : List (Str × TypeDef)) (fuel : Nat) (name : Str) (td : TypeDef)
    (data : Value) (segs : List (List Nat))
    (hp : parseTypeString name = (none, name))
    (hb : name ∉ builtinNames)
    (ha : assoc types name = some td)
    (he : td.targetTypeAsEnum = false)
    (hm : (td.fieldSequence.enum).mapM
        (fun p => writeRecursive types fuel ((asList data).getD p.1 .vnone) p.2.2)
      = .ok segs) :
    writeRecursive types (fuel + 1) data name = .ok segs.flatten
      ∧ writeValue itemListTS (.vstr (lit "1~2~3")) (lit "ItemList[\"~\"]")
        = .ok [0, 0, 0, 0] := by
  constructor
  · simp only [builtinNames, List.mem_cons, List.not_mem_nil] at hb
    push_neg at hb
    obtain ⟨h1, h2, h3, h4, h5, -⟩ := hb
    simp only [writeRecursive, hp, if_neg h3, if_neg h1, if_neg h2, if_neg h4, if_neg h5,
      getType, ha, Resolved.isEnum, he, if_neg (Bool.false_ne_true), Resolved.fields, hm]
  · rfl

/-- C1, witness for the amended theorem at the wrapper scenario itself. -/
theorem c1_struct_positional_encoding_witness :
    writeRecursive itemListTS.loadedTypes 1000
        (.vlist [.vstr (lit "1"), .vstr (lit "2"), .vstr (lit "3")]) (lit "ItemList")
      = .ok ([[0, 0, 0, 0]] : List (List Nat)).flatten := by
  have h := c1_struct_positional_encoding itemListTS.loadedTypes 999 (lit "ItemList")
    { fieldSequence := [(lit "Items", lit "list(int)")] }
    (.vlist [.vstr (lit "1"), .vstr (lit "2"), .vstr (lit "3")]) [[0, 0, 0, 0]]
    rfl (by decide) rfl rfl rfl
  exact h.1

/-! ### C4 -/

/-- C4, counterexample: with a default delimiter schema registered for the
    literal syntax `list(int)`, encoding `"1~2"` against plain `list(int)`
    still yields count 0 — the schema is not consulted; the spec-modelled
    encoder, which does use it, yields the two-element encoding. -/
theorem c4_default_schema_counterexample :
    writeValue schemaTS (.vstr (lit "1~2")) (lit "list(int)") = .ok [0, 0, 0, 0]
      ∧ specWriteValue schemaTS (.vstr (lit "1~2")) (lit "list(int)")
        = .ok [2,0,0,0, 1,0,0,0, 2,0,0,0]
      ∧ ([0, 0, 0, 0] : List Nat) ≠ [2,0,0,0, 1,0,0,0, 2,0,0,0] :=
  ⟨rfl, rfl, by decide⟩

/-- C4, amended: the encoder derives delimiters only from the explicit
    bracketed suffix.  `write_value` never reads the registered default
    schemas — its result is invariant under arbitrary changes to them — and
    with no explicit delimiters the raw string is not split, as the
    concrete encoding with a registered schema shows. -/
theorem c4_explicit_delimiters_only :
    (∀ (files : List Str) (types : List (Str × TypeDef))
        (ds ds1 : List (Str × List Str)) (raw : Value) (syn : Str),
        writeValue { files := files, loadedTypes := types, defaultSchemas := ds } raw syn
          = writeValue { files := files, loadedTypes := types, defaultSchemas := ds1 } raw syn)
      ∧ writeValue schemaTS (.vstr (lit "1~2")) (lit "list(int)") = .ok [0, 0, 0, 0] :=
  ⟨fun _ _ _ _ _ _ => rfl, rfl⟩

/-! ### C5 -/

/-- C5, counterexample: on an empty registry, `get_type` applied to the
    collection-syntax name `list(Foo)` synthesizes the primitive marker
    instead of failing with the claimed `UnknownType` error. -/
theorem c5_collection_synthesis_counterexample :
    getType [] (lit "list(Foo)") = .ok (.marker (lit "list(Foo)"))
      ∧ getType [] (lit "list(Foo)") ≠ .error (.unknownType (lit "list(Foo)")) :=
  ⟨rfl, fun h => by cases h⟩

/-- C5, amended: a loaded definition is returned first (even shadowing the
    builtins); otherwise a primitive marker is synthesized both for the
    five built-in names and for collection-syntax names; only a name that
    is none of these fails, with the UnknownType error. -/
theorem c5_get_type_resolution (types : List (Str × TypeDef)) (name : Str) :
    (∀ td, assoc types name = some td → getType types name = .ok (.defn td))
      ∧ (assoc types name = none → (parseTypeString name).1.isSome
          → getType types name = .ok (.marker name))
      ∧ (assoc types name = none → name ∈ builtinNames
          → getType types name = .ok (.marker name))
      ∧ (assoc types name = none → (parseTypeString name).1 = none
          → name ∉ builtinNames
          → getType types name = .error (.unknownType name)) := by
  refine ⟨?_, ?_, ?_, ?_⟩
  · intro td h
    simp [getType, h]
  · intro h hc
    rcases hps : parseTypeString name with ⟨fst, snd⟩
    rw [hps] at hc
    cases fst with
    | none => simp at hc
    | some c => simp [getType, h, hps]
  · intro h hb
    rcases hps : parseTypeString name with ⟨fst, snd⟩
    cases fst with
    | none =>
      have h0 : (parseTypeString name).1 = none := by rw [hps]
      have he := parseTypeString_none h0
      simp [getType, h, he, hb]
    | some c => simp [getType, h, hps]
  · intro h hp hb
    have := parseTypeString_none hp
    simp [getType, h, this, hb]

/-- C5, witness: the three interesting branches at concrete names. -/
theorem c5_get_type_resolution_witness :
    getType qualityTypes (lit "Quality")
        = .ok (.defn { targetTypeAsEnum := true,
                       enumMembers := [(lit "Common", 0), (lit "Rare", 1)] })
      ∧ getType [] (lit "set(Foo)") = .ok (.marker (lit "set(Foo)"))
      ∧ getType [] (lit "Missing") = .error (.unknownType (lit "Missing")) := by
  refine ⟨?_, ?_, ?_⟩
  · exact (c5_get_type_resolution qualityTypes (lit "Quality")).1 _ rfl
  · exact (c5_get_type_resolution [] (lit "set(Foo)")).2.1 rfl (by decide)
  · exact (c5_get_type_resolution [] (lit "Missing")).2.2.2 rfl (by decide) (by decide)

/-! ### C7 -/

/-- C7: an enum value resolves to an integer ordinal written as a 4-byte
    integer: an already-numeric value passes through, a string is looked up
    in the member table with default 0, null gives 0; for
    `Quality{Common=0, Rare=1}`, `"Rare"` encodes int32(1) and `"Unknown"`
    encodes int32(0). -/
theorem c7_enum_encoding
    (types : List (Str × TypeDef)) (fuel : Nat) (name : Str) (td : TypeDef)
    (data : Value)
    (hp : parseTypeString name = (none, name))
    (hb : name ∉ builtinNames)
    (ha : assoc types name = some td)
    (he : td.targetTypeAsEnum = true) :
    writeRecursive types (fuel + 1) data name = packI32 (enumOrdinal td.enumMembers data)
      ∧ (∀ n : Int, enumOrdinal td.enumMembers (.vint n) = n)
      ∧ (∀ s : Str, enumOrdinal td.enumMembers (.vstr s) = (assoc td.enumMembers s).getD 0)
      ∧ enumOrdinal td.enumMembers .vnone = 0
      ∧ writeRecursive qualityTypes 1 (.vstr (lit "Rare")) (lit "Quality") = .ok [1, 0, 0, 0]
      ∧ writeRecursive qualityTypes 1 (.vstr (lit "Unknown")) (lit "Quality")
          = .ok [0, 0, 0, 0] := by
  refine ⟨?_, fun n => rfl, fun s => rfl, rfl, rfl, rfl⟩
  simp only [builtinNames, List.mem_cons, List.not_mem_nil] at hb
  push_neg at hb
  obtain ⟨h1, h2, h3, h4, h5, -⟩ := hb
  simp only [writeRecursive, hp, if_neg h3, if_neg h1, if_neg h2, if_neg h4, if_neg h5,
    getType, ha, Resolved.isEnum, he, eq_self_iff_true, if_true, Resolved.members]

/-- C7, witness: the general reduction applied at `Quality` on `"Rare"`. -/
theorem c7_enum_encoding_witness :
    writeRecursive qualityTypes 1 (.vstr (lit "Rare")) (lit "Quality")
      = packI32 (enumOrdinal [(lit "Common", 0), (lit "Rare", 1)] (.vstr (lit "Rare"))) :=
  (c7_enum_encoding qualityTypes 0 (lit "Quality")
    { targetTypeAsEnum := true, enumMembers := [(lit "Common", 0), (lit "Rare", 1)] }
    (.vstr (lit "Rare")) rfl (by decide) rfl rfl).1

/-! ### C10 -/

/-- C10: a raw string whose content parses as a JSON object normalizes to a
    dict; the struct encoder consumes only positional lists, so a dict is
    treated exactly like null — every field is encoded with its default —
    and none of the object data reaches the output bytes. -/
theorem c10_json_object_ignored
    (ts : TypeSystem) (s : Str) (kvs : List (Str × Value)) (name : Str) (syn : Str)
    (types : List (Str × TypeDef)) (fuel : Nat) (td : TypeDef)
    (hne : s ≠ [])
    (hsyn : parseUnifiedSyntax syn = .ok (name, none))
    (hl : jsonLooking s = true)
    (hj : jsonParse s = some (.vdict kvs))
    (hp : parseTypeString name = (none, name))
    (hb : name ∉ builtinNames)
    (ha : assoc types name = some td)
    (he : td.targetTypeAsEnum = false) :
    writeValue ts (.vstr s) syn = writeRecursive ts.loadedTypes encodeFuel (.vdict kvs) name
      ∧ writeRecursive types (fuel + 1) (.vdict kvs) name
          = writeRecursive types (fuel + 1) .vnone name
      ∧ writeValue itemTS (.vstr (lit "\x7b\"Id\": 5, \"Count\": 7\x7d")) (lit "Item")
          = .ok [0, 0, 0, 0, 0, 0, 0, 0]
      ∧ writeValue itemTS (.vstr (lit "\x7b\"Id\": 5, \"Count\": 7\x7d")) (lit "Item")
          = writeValue itemTS .vnone (lit "Item") := by
  refine ⟨?_, ?_, rfl, rfl⟩
  · have hcs : coerceEmpty (.vstr s) = .vstr s := by
      cases s with
      | nil => cases hne rfl
      | cons c cs => rfl
    simp only [writeValue, hcs, hsyn, hl, eq_self_iff_true, if_true, hj, Option.getD_some]
  · simp only [builtinNames, List.mem_cons, List.not_mem_nil] at hb
    push_neg at hb
    obtain ⟨h1, h2, h3, h4, h5, -⟩ := hb
    simp only [writeRecursive, hp, if_neg h3, if_neg h1, if_neg h2, if_neg h4, if_neg h5,
      getType, ha, Resolved.isEnum, he, if_neg (Bool.false_ne_true), Resolved.fields, asList]

/-- C10, witness: the normalization and dict-as-null steps at the concrete
    `Item` scenario. -/
theorem c10_json_object_ignored_witness :
    writeValue itemTS (.vstr (lit "\x7b\"Id\": 5, \"Count\": 7\x7d")) (lit "Item")
        = writeRecursive itemTS.loadedTypes encodeFuel
            (.vdict [(lit "Id", .vint 5), (lit "Count", .vint 7)]) (lit "Item")
      ∧ writeRecursive itemTS.loadedTypes 1000
            (.vdict [(lit "Id", .vint 5), (lit "Count", .vint 7)]) (lit "Item")
        = writeRecursive itemTS.loadedTypes 1000 .vnone (lit "Item") := by
  have h := c10_json_object_ignored itemTS (lit "\x7b\"Id\": 5, \"Count\": 7\x7d")
    [(lit "Id", .vint 5), (lit "Count", .vint 7)] (lit "Item") (lit "Item")
    itemTS.loadedTypes 999 { fieldSequence := [(lit "Id", lit "int"), (lit "Count", lit "int")] }
    (by decide) rfl rfl rfl rfl (by decide) rfl rfl
  exact ⟨h.1, h.2.1⟩

/-! ### C3 -/

/-- C3: sibling branches are independent — normalization maps each list
    element and each split part through the same post-pop queue copy, and a
    collection encodes as count plus the per-element segments, so elements
    holding equal values produce equal byte segments no matter where they
    sit. -/
theorem c3_sibling_independence
    (types : List (Str × TypeDef)) (fuel : Nat) (d : Str) (rest : List Str)
    (s : Str) (xs : List Value) (t inner : Str) (c : Str) (segs : List (List Nat))
    (hp : parseTypeString t = (some c, inner))
    (hm : xs.mapM (fun x => writeRecursive types fuel x inner) = .ok segs) :
    normalizeData (.vstr s) (d :: rest)
        = .vlist ((pySplit s d).map (fun p => normalizeData (.vstr p) rest))
      ∧ normalizeData (.vlist xs) (d :: rest)
        = .vlist (xs.map (fun x => normalizeData x rest))
      ∧ writeRecursive types (fuel + 1) (.vlist xs) t
        = .ok (int32LE xs.length ++ segs.flatten)
      ∧ segs.length = xs.length
      ∧ ∀ i j, i < xs.length → j < xs.length →
          xs.getD i .vnone = xs.getD j .vnone → segs.getD i [] = segs.getD j [] := by
  obtain ⟨hlen, hget⟩ :=
    mapM_ok_spec (fun x => writeRecursive types fuel x inner) .vnone [] xs segs hm
  refine ⟨rfl, rfl, ?_, hlen, ?_⟩
  · simp only [writeRecursive, hp, asList, hm]
  · intro i j hi hj hxs
    have hgi := hget i hi
    have hgj := hget j hj
    rw [hxs] at hgi
    rw [hgi] at hgj
    exact Except.ok.inj hgj

/-- C3, witness: two equal sibling elements of a `list(int)` produce equal
    byte segments. -/
theorem c3_sibling_independence_witness :
    writeRecursive [] 2 (.vlist [.vstr (lit "2"), .vstr (lit "2")]) (lit "list(int)")
        = .ok (int32LE 2 ++ ([[2, 0, 0, 0], [2, 0, 0, 0]] : List (List Nat)).flatten)
      ∧ ([[2, 0, 0, 0], [2, 0, 0, 0]] : List (List Nat)).getD 0 []
        = ([[2, 0, 0, 0], [2, 0, 0, 0]] : List (List Nat)).getD 1 [] := by
  have h := c3_sibling_independence [] 1 (lit "~") [] (lit "x")
    [.vstr (lit "2"), .vstr (lit "2")] (lit "list(int)") (lit "int") (lit "list")
    [[2, 0, 0, 0], [2, 0, 0, 0]] rfl rfl
  exact ⟨h.2.2.1, h.2.2.2.2 0 1 (by decide) (by decide) rfl⟩

/-! ### C6 -/

/-- A `w`-byte little-endian image has exactly `w` bytes. -/
theorem natLE_length : ∀ (w n : Nat), (natLE w n).length = w := by
  intro w
  induction w with
  | zero => intro n; rfl
  | succ w ih => intro n; simp [natLE, ih]

/-- Little-endian decoding inverts the byte image modulo `256 ^ w`. -/
theorem leToNat_natLE : ∀ (w n : Nat), leToNat (natLE w n) = n % 256 ^ w := by
  intro w
  induction w with
  | zero => intro n; simp [natLE, leToNat, Nat.mod_one]
  | succ w ih =>
    intro n
    rw [pow_succ', Nat.mod_mul]
    simp [natLE, leToNat, ih]

/-- Signed round trip of the 4-byte little-endian image. -/
theorem decodeInt32_int32LE (v : Int) (hlo : -(2 ^ 31) ≤ v) (hhi : v < 2 ^ 31) :
    decodeInt32 (int32LE v) = v := by
  simp only [decodeInt32, int32LE, leToNat_natLE]
  rw [show (256 : Nat) ^ 4 = 2 ^ 32 from by norm_num]
  split_ifs with h <;> omega

/-- Signed round trip of the 8-byte little-endian image. -/
theorem decodeInt64_int64LE (v : Int) (hlo : -(2 ^ 63) ≤ v) (hhi : v < 2 ^ 63) :
    decodeInt64 (int64LE v) = v := by
  simp only [decodeInt64, int64LE, leToNat_natLE]
  rw [show (256 : Nat) ^ 8 = 2 ^ 64 from by norm_num]
  split_ifs with h <;> omega

/-- C6: the primitive wire format is fixed width and little endian with no
    padding and no tags — bool is one byte 0 or 1; int and long are 4 and 8
    bytes whose signed little-endian decoding returns the value; a string
    writes a 4-byte prefix equal to its UTF-8 byte count (not its character
    count, as the 3-character, 9-byte example shows) followed by exactly
    those bytes; float writes the 4 IEEE-754 binary32 bytes, with the
    all-zero image for the absent value. -/
theorem c6_primitive_wire_format :
    (∀ b : Bool, (packBool b).length = 1 ∧ (packBool b = [0] ∨ packBool b = [1]))
      ∧ (∀ v : Int, -(2 ^ 31) ≤ v → v < 2 ^ 31 →
          packI32 v = .ok (int32LE v) ∧ (int32LE v).length = 4
            ∧ decodeInt32 (int32LE v) = v)
      ∧ (∀ v : Int, -(2 ^ 63) ≤ v → v < 2 ^ 63 →
          packI64 v = .ok (int64LE v) ∧ (int64LE v).length = 8
            ∧ decodeInt64 (int64LE v) = v)
      ∧ (∀ s : Str, writeStringB (.vstr s) = int32LE (utf8 s).length ++ utf8 s
          ∧ (utf8 s).length = (s.map utf8Char).flatten.length)
      ∧ ((utf8 (lit "你好吗")).length = 9 ∧ (lit "你好吗").length = 3
          ∧ writeStringB (.vstr (lit "你好吗"))
              = [9, 0, 0, 0, 228, 189, 160, 229, 165, 189, 229, 144, 151])
      ∧ (∀ n : Int, writeFloatB (.vint n) = .ok (natLE 4 (f32bitsOfInt n)))
      ∧ (∀ x : Nat, (natLE 4 x).length = 4)
      ∧ f32bitsOfInt 1 = 1065353216
      ∧ f32bitsOfInt (-1) = 3212836864
      ∧ writeFloatB .vnone = .ok [0, 0, 0, 0] := by
  refine ⟨?_, ?_, ?_, ?_, ?_, fun n => rfl, fun x => natLE_length 4 x,
    by decide, by decide, rfl⟩
  · intro b
    cases b <;> exact ⟨rfl, by simp [packBool]⟩
  · intro v hlo hhi
    refine ⟨?_, natLE_length 4 _, decodeInt32_int32LE v hlo hhi⟩
    simp only [packI32, if_pos (And.intro hlo hhi)]
  · intro v hlo hhi
    refine ⟨?_, natLE_length 8 _, decodeInt64_int64LE v hlo hhi⟩
    simp only [packI64, if_pos (And.intro hlo hhi)]
  · intro s
    exact ⟨rfl, rfl⟩
  · exact ⟨rfl, rfl, rfl⟩

/-- C6, witness: the ranged round trips at concrete values. -/
theorem c6_primitive_wire_format_witness :
    decodeInt32 (int32LE (-2)) = -2 ∧ packI64 300 = .ok (int64LE 300) := by
  refine ⟨(c6_primitive_wire_format.2.1 (-2) (by decide) (by decide)).2.2, ?_⟩
  exact (c6_primitive_wire_format.2.2.1 300 (by decide) (by decide)).1

/-! ### C8 -/

/-- C8: null or empty-string input encodes every primitive kind as its zero
    value (string as prefix 0, int32/int64 as 0, float32 as 0.0, bool as
    false); null for a collection encodes count 0; null for a struct
    defaults every field recursively; string-to-bool coercion accepts the
    case-insensitive `true`/`1`/`yes` as true and anything else as false,
    and only strings use it — other values use direct boolean conversion. -/
theorem c8_absent_value_defaults
    (types : List (Str × TypeDef)) (fuel : Nat) (t inner c name : Str)
    (td : TypeDef) (segs : List (List Nat)) (v : Value)
    (hp : parseTypeString t = (some c, inner))
    (hpn : parseTypeString name = (none, name))
    (hb : name ∉ builtinNames)
    (ha : assoc types name = some td)
    (he : td.targetTypeAsEnum = false)
    (hm : (td.fieldSequence.enum).mapM (fun p => writeRecursive types fuel .vnone p.2.2)
        = .ok segs)
    (hv : ∀ s : Str, v ≠ Value.vstr s) :
    (writeValue {} .vnone (lit "string") = .ok [0, 0, 0, 0]
        ∧ writeValue {} (.vstr []) (lit "string") = .ok [0, 0, 0, 0]
        ∧ writeValue {} .vnone (lit "int") = .ok [0, 0, 0, 0]
        ∧ writeValue {} (.vstr []) (lit "int") = .ok [0, 0, 0, 0]
        ∧ writeValue {} .vnone (lit "long") = .ok [0, 0, 0, 0, 0, 0, 0, 0]
        ∧ writeValue {} (.vstr []) (lit "long") = .ok [0, 0, 0, 0, 0, 0, 0, 0]
        ∧ writeValue {} .vnone (lit "float") = .ok [0, 0, 0, 0]
        ∧ writeValue {} (.vstr []) (lit "float") = .ok [0, 0, 0, 0]
        ∧ writeValue {} .vnone (lit "bool") = .ok [0]
        ∧ writeValue {} (.vstr []) (lit "bool") = .ok [0])
      ∧ writeRecursive types (fuel + 1) .vnone t = .ok (int32LE 0)
      ∧ writeRecursive types (fuel + 1) .vnone name = .ok segs.flatten
      ∧ (∀ s : Str, writeRecursive types (fuel + 1) (.vstr s) (lit "bool")
          = .ok (packBool (lowerS s == lit "true" || lowerS s == lit "1"
              || lowerS s == lit "yes")))
      ∧ writeRecursive types (fuel + 1) v (lit "bool") = .ok (packBool (pyTruthy v)) := by
  refine ⟨⟨rfl, rfl, rfl, rfl, rfl, rfl, rfl, rfl, rfl, rfl⟩, ?_, ?_, fun s => rfl, ?_⟩
  · simp only [writeRecursive, hp, asList]
    rfl
  · simp only [builtinNames, List.mem_cons, List.not_mem_nil] at hb
    push_neg at hb
    obtain ⟨h1, h2, h3, h4, h5, -⟩ := hb
    simp only [writeRecursive, hpn, if_neg h3, if_neg h1, if_neg h2, if_neg h4, if_neg h5,
      getType, ha, Resolved.isEnum, he, if_neg (Bool.false_ne_true), Resolved.fields,
      asList, List.getD_nil, hm]
  · cases v with
    | vstr s => exact absurd rfl (hv s)
    | vnone => rfl
    | vint n => rfl
    | vbool b => rfl
    | vlist xs => rfl
    | vdict kvs => rfl

/-- C8, witness: the ranged conjuncts at concrete inputs — null against a
    collection and a struct, bool coercion on a mixed-case string and on a
    non-string number. -/
theorem c8_absent_value_defaults_witness :
    writeRecursive itemTS.loadedTypes 1000 .vnone (lit "list(int)") = .ok (int32LE 0)
      ∧ writeRecursive itemTS.loadedTypes 1000 .vnone (lit "Item")
        = .ok ([[0, 0, 0, 0], [0, 0, 0, 0]] : List (List Nat)).flatten
      ∧ writeRecursive itemTS.loadedTypes 1000 (.vstr (lit "TRUE")) (lit "bool")
        = .ok (packBool (lowerS (lit "TRUE") == lit "true"
            || lowerS (lit "TRUE") == lit "1" || lowerS (lit "TRUE") == lit "yes"))
      ∧ writeRecursive itemTS.loadedTypes 1000 (.vint 5) (lit "bool")
        = .ok (packBool (pyTruthy (.vint 5))) := by
  have h := c8_absent_value_defaults itemTS.loadedTypes 999 (lit "list(int)") (lit "int")
    (lit "list") (lit "Item")
    { fieldSequence := [(lit "Id", lit "int"), (lit "Count", lit "int")] }
    [[0, 0, 0, 0], [0, 0, 0, 0]] (.vint 5) rfl rfl (by decide) rfl
    rfl rfl (by intro s hs; cases hs)
  exact ⟨h.2.1, h.2.2.1, h.2.2.2.1 (lit "TRUE"), h.2.2.2.2⟩

/-! ### C2 -/

/-- C2, counterexample: for `list(list(string))["~","#"]` on `"a~"`, the
    nested empty part `""` does not give an empty element sequence: the
    encoder emits count 1 with one empty string, where the claimed rule
    (followed by the spec-modelled encoder) emits count 0. -/
theorem c2_empty_string_counterexample :
    writeValue {} (.vstr (lit "a~")) (lit "list(list(string))[\"~\",\"#\"]")
        = .ok [2,0,0,0, 1,0,0,0, 1,0,0,0, 97, 1,0,0,0, 0,0,0,0]
      ∧ specWriteValue {} (.vstr (lit "a~")) (lit "list(list(string))[\"~\",\"#\"]")
        = .ok [2,0,0,0, 1,0,0,0, 1,0,0,0, 97, 0,0,0,0]
      ∧ ([2,0,0,0, 1,0,0,0, 1,0,0,0, 97, 1,0,0,0, 0,0,0,0] : List Nat)
        ≠ [2,0,0,0, 1,0,0,0, 1,0,0,0, 97, 0,0,0,0] :=
  ⟨rfl, rfl, by decide⟩

/-- C2, amended: delimiters are consumed eagerly by a recursive
    pre-normalization pass, one per nesting level, before type dispatch:
    a string pops one delimiter and splits (each part getting an independent
    copy of the remaining queue), and the writer then emits a 4-byte count
    and the per-element encodings of the resulting list; a list is used
    directly, anything else encodes as empty.  An empty string at a nested
    level splits to one empty part (count 1); only a top-level empty raw
    value is coerced to null and encodes count 0. -/
theorem c2_collection_encoding
    (ts : TypeSystem) (c1 : Char) (cs : Str) (syn typeStr d : Str) (ds : List Str)
    (types : List (Str × TypeDef)) (fuel : Nat) (xs : List Value)
    (t inner cname : Str) (segs : List (List Nat))
    (hsyn : parseUnifiedSyntax syn = .ok (typeStr, some (d :: ds)))
    (hp : parseTypeString t = (some cname, inner))
    (hm : xs.mapM (fun x => writeRecursive types fuel x inner) = .ok segs) :
    writeValue ts (.vstr (c1 :: cs)) syn
        = writeRecursive ts.loadedTypes encodeFuel
            (normalizeData (.vstr (c1 :: cs)) (d :: ds)) typeStr
      ∧ (∀ s rest, normalizeData (.vstr s) (d :: rest)
          = .vlist ((pySplit s d).map (fun p => normalizeData (.vstr p) rest)))
      ∧ writeRecursive types (fuel + 1) (.vlist xs) t
          = .ok (int32LE xs.length ++ segs.flatten)
      ∧ writeRecursive types (fuel + 1) .vnone t = .ok (int32LE 0)
      ∧ pySplit [] (lit "#") = [[]]
      ∧ writeValue {} (.vstr []) (lit "list(int)[\"~\"]") = .ok [0, 0, 0, 0] := by
  refine ⟨?_, fun s rest => rfl, ?_, ?_, rfl, rfl⟩
  · simp only [writeValue, coerceEmpty, hsyn]
  · simp only [writeRecursive, hp, asList, hm]
  · simp only [writeRecursive, hp, asList]
    rfl

/-- C2, witness: the amended reduction applied at the counterexample input
    and at a two-element list. -/
theorem c2_collection_encoding_witness :
    writeValue {} (.vstr (lit "a~")) (lit "list(list(string))[\"~\",\"#\"]")
        = writeRecursive [] encodeFuel
            (normalizeData (.vstr (lit "a~")) [lit "~", lit "#"]) (lit "list(list(string))")
      ∧ writeRecursive [] 2 (.vlist [.vstr (lit "7"), .vnone]) (lit "list(int)")
        = .ok (int32LE 2 ++ ([[7, 0, 0, 0], [0, 0, 0, 0]] : List (List Nat)).flatten) := by
  have h := c2_collection_encoding {} 'a' (lit "~") (lit "list(list(string))[\"~\",\"#\"]")
    (lit "list(list(string))") (lit "~") [lit "#"] [] 1
    [.vstr (lit "7"), .vnone] (lit "list(int)") (lit "int") (lit "list")
    [[7, 0, 0, 0], [0, 0, 0, 0]] rfl rfl rfl
  exact ⟨h.1, h.2.2.1⟩

/-! ### C9 -/

/-- Prepending by `foldl` is reversal plus append. -/
theorem foldl_cons_eq {β : Type} :
    ∀ (l : List (Str × β)) (base : List (Str × β)),
      l.foldl (fun m kv => kv :: m) base = l.reverse ++ base := by
  intro l
  induction l with
  | nil => intro base; rfl
  | cons kv l ih =>
    intro base
    simp only [List.foldl_cons, ih, List.reverse_cons, List.append_assoc,
      List.singleton_append]

/-- Lookup through an append tries the left list first. -/
theorem assoc_append {β : Type} (l1 l2 : List (Str × β)) (k : Str) :
    assoc (l1 ++ l2) k
      = (match assoc l1 k with
         | some v => some v
         | none => assoc l2 k) := by
  induction l1 with
  | nil => simp [assoc]
  | cons kv l ih =>
    by_cases h : kv.1 = k
    · simp [assoc, h]
    · simp [assoc, h, ih]

/-- Files already marked loaded stay loaded through any `loadList` call. -/
theorem loadList_files_mono (store : Store) :
    ∀ fuel ps ts ts', loadList store fuel ps ts = .ok ts' →
      ∀ q, q ∈ ts.files → q ∈ ts'.files := by
  intro fuel
  induction fuel with
  | zero =>
    intro ps ts ts' h
    simp [loadList] at h
  | succ f ih =>
    intro ps ts ts' h q hq
    cases ps with
    | nil =>
      simp only [loadList, Except.ok.injEq] at h
      subst h
      exact hq
    | cons p ps =>
      simp only [loadList] at h
      by_cases hmem : p ∈ ts.files
      · rw [if_pos hmem] at h
        exact ih ps ts ts' h q hq
      · rw [if_neg hmem] at h
        cases hs : assoc store p with
        | none => simp [hs] at h
        | some file =>
          simp only [hs] at h
          cases him : loadList store f file.importTypes { ts with files := p :: ts.files } with
          | error e => simp [him] at h
          | ok ts2 =>
            simp only [him] at h
            have hq2 : q ∈ ts2.files :=
              ih _ _ _ him q (List.mem_cons_of_mem _ hq)
            exact ih ps _ ts' h q hq2

/-- Every path in the pending list of a successful `loadList` call ends up
    in the loaded-files set. -/
theorem loadList_loads (store : Store) :
    ∀ fuel ps ts ts', loadList store fuel ps ts = .ok ts' →
      ∀ p, p ∈ ps → p ∈ ts'.files := by
  intro fuel
  induction fuel with
  | zero =>
    intro ps ts ts' h
    simp [loadList] at h
  | succ f ih =>
    intro ps ts ts' h p hp
    cases ps with
    | nil => cases hp
    | cons p0 ps =>
      simp only [loadList] at h
      rcases List.mem_cons.mp hp with heq | htail
      · subst heq
        by_cases hmem : p ∈ ts.files
        · rw [if_pos hmem] at h
          exact loadList_files_mono store _ _ _ _ h p hmem
        · rw [if_neg hmem] at h
          cases hs : assoc store p with
          | none => simp [hs] at h
          | some file =>
            simp only [hs] at h
            cases him : loadList store f file.importTypes
                { ts with files := p :: ts.files } with
            | error e => simp [him] at h
            | ok ts2 =>
              simp only [him] at h
              have h1 : p ∈ ts2.files :=
                loadList_files_mono store _ _ _ _ him p (List.mem_cons_self _ _)
              exact loadList_files_mono store _ _ _ _ h p h1
      · by_cases hmem : p0 ∈ ts.files
        · rw [if_pos hmem] at h
          exact ih ps ts ts' h p htail
        · rw [if_neg hmem] at h
          cases hs : assoc store p0 with
          | none => simp [hs] at h
          | some file =>
            simp only [hs] at h
            cases him : loadList store f file.importTypes
                { ts with files := p0 :: ts.files } with
            | error e => simp [him] at h
            | ok ts2 =>
              simp only [him] at h
              exact ih ps _ ts' h p htail

/-- Structure of one successful fresh `load_type_def` call: the imports are
    loaded first from the state with the path marked, then the local
    definitions and schemas are prepended. -/
theorem loadTypeDef_ok_destruct (store : Store) (fuel : Nat) (p : Str)
    (ts ts' : TypeSystem) (file : TypeFile)
    (h : loadTypeDef store fuel p ts = .ok ts')
    (hmem : p ∉ ts.files)
    (hs : assoc store p = some file) :
    ∃ f ts2, loadList store f file.importTypes { ts with files := p :: ts.files } = .ok ts2
      ∧ ts' = { ts2 with
          loadedTypes := file.typeDefines.foldl (fun m kv => kv :: m) ts2.loadedTypes,
          defaultSchemas :=
            file.sourceSchemas.foldl (fun m kv => kv :: m) ts2.defaultSchemas } := by
  cases fuel with
  | zero => simp [loadTypeDef, loadList] at h
  | succ f =>
    simp only [loadTypeDef, loadList, if_neg hmem, hs] at h
    cases him : loadList store f file.importTypes { ts with files := p :: ts.files } with
    | error e => simp [him] at h
    | ok ts2 =>
      simp only [him] at h
      cases f with
      | zero => simp [loadList] at h
      | succ f1 =>
        simp only [loadList, Except.ok.injEq] at h
        exact ⟨f1 + 1, ts2, him, h.symm⟩

/-- C9: loading is idempotent per canonical path (a second load of an
    already-loaded source returns the state unchanged); a fresh load pulls
    every declared import into the loaded set before registering local
    definitions; and the local definitions registered last win lookup over
    anything registered before them — later definitions silently overwrite
    earlier ones of the same name instead of raising. -/
theorem c9_registry_load (store : Store) :
    (∀ fuel p ts ts' g, loadTypeDef store fuel p ts = .ok ts' →
        loadTypeDef store (g + 2) p ts' = .ok ts')
      ∧ (∀ fuel p ts ts' file, loadTypeDef store fuel p ts = .ok ts' → p ∉ ts.files →
          assoc store p = some file → ∀ q ∈ file.importTypes, q ∈ ts'.files)
      ∧ (∀ fuel p ts ts' file n d, loadTypeDef store fuel p ts = .ok ts' → p ∉ ts.files →
          assoc store p = some file → assoc file.typeDefines.reverse n = some d →
          assoc ts'.loadedTypes n = some d) := by
  refine ⟨?_, ?_, ?_⟩
  · intro fuel p ts ts' g h
    have hp : p ∈ ts'.files :=
      loadList_loads store fuel [p] ts ts' h p (List.mem_cons_self _ _)
    simp [loadTypeDef, loadList, hp]
  · intro fuel p ts ts' file h hmem hs q hq
    obtain ⟨f, ts2, him, hts⟩ := loadTypeDef_ok_destruct store fuel p ts ts' file h hmem hs
    have h1 : q ∈ ts2.files := loadList_loads store f _ _ _ him q hq
    rw [hts]
    exact h1
  · intro fuel p ts ts' file n d h hmem hs hrev
    obtain ⟨f, ts2, him, hts⟩ := loadTypeDef_ok_destruct store fuel p ts ts' file h hmem hs
    rw [hts]
    simp only [foldl_cons_eq, assoc_append, hrev]

/-- C9, witness: file `A` imports `B`, both define `T`; loading `A` loads
    `B` into the file set first and the later-registered definition from
    `A` wins lookup; a repeated load is a no-op. -/
theorem c9_registry_load_witness :
    loadTypeDef storeC9 2 (lit "A")
        { files := [lit "B", lit "A"],
          loadedTypes := [(lit "T", { fieldSequence := [(lit "x", lit "int")] }),
                          (lit "T", { targetTypeAsEnum := true })] }
      = .ok { files := [lit "B", lit "A"],
              loadedTypes := [(lit "T", { fieldSequence := [(lit "x", lit "int")] }),
                              (lit "T", { targetTypeAsEnum := true })] }
      ∧ lit "B" ∈ ([lit "B", lit "A"] : List Str)
      ∧ assoc ([(lit "T", { fieldSequence := [(lit "x", lit "int")] }),
                (lit "T", { targetTypeAsEnum := true })] : List (Str × TypeDef)) (lit "T")
        = some { fieldSequence := [(lit "x", lit "int")] } := by
  have hload : loadTypeDef storeC9 10 (lit "A") {}
      = .ok { files := [lit "B", lit "A"],
              loadedTypes := [(lit "T", { fieldSequence := [(lit "x", lit "int")] }),
                              (lit "T", { targetTypeAsEnum := true })] } := rfl
  have h := c9_registry_load storeC9
  refine ⟨h.1 10 (lit "A") {} _ 0 hload, ?_, ?_⟩
  · exact h.2.1 10 (lit "A") {} _
      { importTypes := [lit "B"],
        typeDefines := [(lit "T", { fieldSequence := [(lit "x", lit "int")] })] }
      hload (by intro hx; cases hx) rfl (lit "B") (List.mem_cons_self _ _)
  · exact h.2.2 10 (lit "A") {} _
      { importTypes := [lit "B"],
        typeDefines := [(lit "T", { fieldSequence := [(lit "x", lit "int")] })] }
      (lit "T") { fieldSequence := [(lit "x", lit "int")] }
      hload (by intro hx; cases hx) rfl rfl

end TableCompiler
